import Mathlib

/-!
Verification of the Transcript Ingestion and Task Lifecycle Engine.

The development shallowly embeds the TypeScript sources
(`src/services/openaiService.ts`, `src/services/firestoreService.ts`,
`src/utils/transcriptParser.ts`, `src/utils/dateResolver.ts`) into Lean.
JavaScript strings are modelled as `List Char`; JavaScript numbers used for
task confidences are modelled as `ℚ` (only comparisons are performed on them,
and all literals appearing in the code are exactly representable, so the
embedding is faithful); calendar dates are modelled as day numbers with the
standard civil-calendar conversion.  Regular-expression tests are embedded as
hand-written decidable matchers over `List Char` that implement the exact
backtracking semantics of the source patterns on the relevant inputs.
-/

deriving instance DecidableEq for Except

namespace MeetingBot

/-- JavaScript strings are modelled as lists of characters. -/
abbrev Str := List Char

/-- Convert a Lean string literal into the character-list model. -/
def str (s : String) : Str := s.data

/-- Whitespace characters recognised by JavaScript `trim` and `\s`
(restricted to the ASCII whitespace that can occur in the data handled by
this program). -/
def isWSChar (c : Char) : Bool :=
  c == ' ' || c == '\t' || c == '\n' || c == '\r' || c == '\x0b' || c == '\x0c'

/-- JavaScript `String.prototype.trim`: drop whitespace from both ends. -/
def jsTrim (s : Str) : Str :=
  ((s.dropWhile isWSChar).reverse.dropWhile isWSChar).reverse

/-- JavaScript `s.split('\n')`: split a string at every newline character.
The result is always nonempty. -/
def splitLines : Str → List Str
  | [] => [[]]
  | c :: rest =>
    if c = '\n' then [] :: splitLines rest
    else
      match splitLines rest with
      | [] => [[c]]
      | l :: ls => (c :: l) :: ls

/-- Join a list of strings with newline separators
(JavaScript `lines.join('\n')`). -/
def joinNl : List Str → Str
  | [] => []
  | [l] => l
  | l :: ls => l ++ '\n' :: joinNl ls

/-- JavaScript word character `\w` = `[A-Za-z0-9_]`. -/
def isWordChar (c : Char) : Bool := c.isAlphanum || c == '_'

/-- Character class `[\w\s]` used by the speaker-change pattern. -/
def isWordOrWS (c : Char) : Bool := isWordChar c || isWSChar c

/-- The speaker-change test `/^(?:\[[\w\s]+\]|[\w\s]+:)/.test(line)` from
`splitTranscriptIntoChunks`.  The first alternative needs `[`, one or more
word/whitespace characters, then `]`; because `]` is not in the class, the
greedy run is forced to stop exactly at the first non-class character, which
must be `]`.  The second alternative is the same argument with `:`. -/
def speakerTest (line : Str) : Bool :=
  (match line with
   | '[' :: rest =>
     (!(rest.takeWhile isWordOrWS).isEmpty) &&
       ((rest.dropWhile isWordOrWS).headD ' ' == ']')
   | _ => false)
  ||
  ((!(line.takeWhile isWordOrWS).isEmpty) &&
    ((line.dropWhile isWordOrWS).headD ' ' == ':'))

/-- `MAX_CHARS_PER_CHUNK = MAX_TOKENS_PER_CHUNK * CHARS_PER_TOKEN_ESTIMATE`
from `openaiService.ts`. -/
def MAX_CHARS_PER_CHUNK : Nat := 100000 * 4

/-- State of the chunking loop: the emitted chunks and the running buffer. -/
structure ChunkState where
  chunks : List Str
  currentChunk : Str
deriving DecidableEq

/-- One iteration of the `for (const line of lines)` loop of
`splitTranscriptIntoChunks`. -/
def chunkStep (maxChars : Nat) (st : ChunkState) (line : Str) : ChunkState :=
  let lineWithNewline := line ++ ['\n']
  if st.currentChunk.length + lineWithNewline.length > maxChars then
    if speakerTest line && decide (0 < st.currentChunk.length) then
      ⟨st.chunks ++ [jsTrim st.currentChunk], lineWithNewline⟩
    else
      ⟨if 0 < st.currentChunk.length then st.chunks ++ [jsTrim st.currentChunk]
        else st.chunks,
       lineWithNewline⟩
  else
    ⟨st.chunks, st.currentChunk ++ lineWithNewline⟩

/-- `splitTranscriptIntoChunks` from `openaiService.ts`, generalised over the
size bound exactly as the specification's chunk-planner contract
`plan(content, maxChars)`; the source instantiates `maxChars` with
`MAX_CHARS_PER_CHUNK`. -/
def splitTranscriptIntoChunks (maxChars : Nat) (transcript : Str) : List Str :=
  let lines := splitLines transcript
  let st := lines.foldl (chunkStep maxChars) ⟨[], []⟩
  if 0 < (jsTrim st.currentChunk).length then st.chunks ++ [jsTrim st.currentChunk]
  else st.chunks

/-! Helper notions for the chunk-planner proofs. -/

/-- A line that is nonempty and neither starts nor ends with whitespace. -/
def lineOk (l : Str) : Bool :=
  !l.isEmpty && !isWSChar (l.headD ' ') && !isWSChar (l.getLastD ' ')

/-- The raw chunk buffer obtained by appending each line plus a newline. -/
def concatNl (g : List Str) : Str := (g.map (· ++ ['\n'])).flatten

/-- Joining chunks and a trailing group of unflushed lines. -/
def joinAll (chunks rest : List Str) : Str :=
  if rest = [] then joinNl chunks
  else if chunks = [] then joinNl rest
  else joinNl chunks ++ '\n' :: joinNl rest

theorem splitLines_ne_nil (t : Str) : splitLines t ≠ [] := by
  induction t with
  | nil => simp [splitLines]
  | cons c rest ih =>
    simp only [splitLines]
    split
    · simp
    · cases h : splitLines rest with
      | nil => simp
      | cons l ls => simp

theorem joinNl_splitLines (t : Str) : joinNl (splitLines t) = t := by
  induction t with
  | nil => simp [splitLines, joinNl]
  | cons c rest ih =>
    simp only [splitLines]
    split
    · rename_i hc
      subst hc
      cases h : splitLines rest with
      | nil => exact absurd h (splitLines_ne_nil rest)
      | cons l ls =>
        rw [h] at ih
        simp [joinNl, ih]
    · cases h : splitLines rest with
      | nil => exact absurd h (splitLines_ne_nil rest)
      | cons l ls =>
        rw [h] at ih
        cases ls with
        | nil => simp [joinNl] at ih ⊢; simp [ih]
        | cons l' ls' => simp [joinNl] at ih ⊢; simp [ih]

theorem joinNl_cons_of_ne_nil (l : Str) {ls : List Str} (h : ls ≠ []) :
    joinNl (l :: ls) = l ++ '\n' :: joinNl ls := by
  cases ls with
  | nil => exact absurd rfl h
  | cons a as => rfl

theorem joinNl_append {a b : List Str} (ha : a ≠ []) (hb : b ≠ []) :
    joinNl (a ++ b) = joinNl a ++ '\n' :: joinNl b := by
  induction a with
  | nil => exact absurd rfl ha
  | cons x a' ih =>
    cases a' with
    | nil =>
      cases b with
      | nil => exact absurd rfl hb
      | cons y ys => simp [joinNl]
    | cons x' a'' =>
      have h1 : (x' :: a'') ++ b ≠ [] := by simp
      rw [List.cons_append, joinNl_cons_of_ne_nil x h1,
        ih (by simp), joinNl_cons_of_ne_nil x (by simp)]
      simp

theorem joinNl_concat {ls : List Str} (l : Str) (h : ls ≠ []) :
    joinNl (ls ++ [l]) = joinNl ls ++ '\n' :: l := by
  rw [joinNl_append h (by simp)]
  rfl

theorem concatNl_eq_nil_iff (g : List Str) : concatNl g = [] ↔ g = [] := by
  cases g with
  | nil => simp [concatNl]
  | cons l ls => simp [concatNl]

theorem concatNl_concat (g : List Str) (l : Str) :
    concatNl (g ++ [l]) = concatNl g ++ (l ++ ['\n']) := by
  simp [concatNl]

theorem concatNl_eq_joinNl {g : List Str} (h : g ≠ []) :
    concatNl g = joinNl g ++ ['\n'] := by
  induction g with
  | nil => exact absurd rfl h
  | cons l ls ih =>
    cases ls with
    | nil => simp [concatNl, joinNl]
    | cons l' ls' =>
      rw [joinNl_cons_of_ne_nil l (by simp)]
      have : concatNl (l :: l' :: ls') = (l ++ ['\n']) ++ concatNl (l' :: ls') := by
        simp [concatNl]
      rw [this, ih (by simp)]
      simp

theorem dropWhile_eq_self_of_head {s : Str}
    (h : ∀ c, s.head? = some c → isWSChar c = false) :
    s.dropWhile isWSChar = s := by
  cases s with
  | nil => rfl
  | cons c t =>
    have := h c rfl
    simp [List.dropWhile_cons, this]

theorem lineOk_ne_nil {l : Str} (h : lineOk l = true) : l ≠ [] := by
  cases l with
  | nil => simp [lineOk] at h
  | cons c t => simp

theorem lineOk_head {l : Str} (h : lineOk l = true) :
    ∀ c, l.head? = some c → isWSChar c = false := by
  intro c hc
  cases l with
  | nil => simp at hc
  | cons a t =>
    simp at hc
    simp [lineOk, List.headD] at h
    rw [← hc]
    exact h.1

theorem lineOk_reverse_head {l : Str} (h : lineOk l = true) :
    ∀ c, l.reverse.head? = some c → isWSChar c = false := by
  intro c hc
  rw [List.head?_reverse] at hc
  cases l with
  | nil => simp at hc
  | cons a t =>
    simp [lineOk] at h
    rw [hc] at h
    exact h.2

theorem joinNl_cons_head? (l : Str) (ls : List Str) (hl : l ≠ []) :
    (joinNl (l :: ls)).head? = l.head? := by
  cases ls with
  | nil => rfl
  | cons a as =>
    rw [joinNl_cons_of_ne_nil l (by simp)]
    cases l with
    | nil => exact absurd rfl hl
    | cons x xs => rfl

theorem joinNl_ne_nil_of_group {g : List Str} (hg : g ≠ [])
    (hok : ∀ l ∈ g, lineOk l = true) : joinNl g ≠ [] := by
  cases g with
  | nil => exact absurd rfl hg
  | cons l ls =>
    have hl := lineOk_ne_nil (hok l (by simp))
    intro hcon
    have := joinNl_cons_head? l ls hl
    rw [hcon] at this
    cases l with
    | nil => exact hl rfl
    | cons x xs => simp at this

/-- Head of a group-joined string is the head of the first line. -/
theorem joinNl_head_of_group {g : List Str} (hg : g ≠ [])
    (hok : ∀ l ∈ g, lineOk l = true) :
    ∀ c, (joinNl g).head? = some c → isWSChar c = false := by
  intro c hc
  cases g with
  | nil => exact absurd rfl hg
  | cons l ls =>
    have hl := hok l (by simp)
    rw [joinNl_cons_head? l ls (lineOk_ne_nil hl)] at hc
    exact lineOk_head hl c hc

/-- Head of the reversed group-joined string is the last char of the last
line. -/
theorem joinNl_reverse_head_of_group {g : List Str} (hg : g ≠ [])
    (hok : ∀ l ∈ g, lineOk l = true) :
    ∀ c, (joinNl g).reverse.head? = some c → isWSChar c = false := by
  intro c hc
  rcases List.eq_nil_or_concat g with h | ⟨ls, l, hgl⟩
  · exact absurd h hg
  rw [List.concat_eq_append] at hgl
  subst hgl
  have hl := hok l (by simp)
  have hlne := lineOk_ne_nil hl
  have hrev : (joinNl (ls ++ [l])).reverse.head? = l.reverse.head? := by
    cases hls : ls with
    | nil => simp [joinNl]
    | cons a as =>
      rw [← hls, joinNl_concat l (by rw [hls]; simp)]
      rw [List.reverse_append]
      have h2 : ('\n' :: l).reverse = l.reverse ++ ['\n'] := by simp
      rw [h2]
      cases hr : l.reverse with
      | nil => exact absurd (by simpa using congrArg List.reverse hr) hlne
      | cons x xs => simp
  rw [hrev] at hc
  exact lineOk_reverse_head hl c hc

/-- Trimming the raw buffer of a nonempty group of clean lines yields
exactly the newline-joined group. -/
theorem jsTrim_concatNl {g : List Str} (hg : g ≠ [])
    (hok : ∀ l ∈ g, lineOk l = true) :
    jsTrim (concatNl g) = joinNl g := by
  rw [concatNl_eq_joinNl hg]
  unfold jsTrim
  have h1 : (joinNl g ++ ['\n']).dropWhile isWSChar = joinNl g ++ ['\n'] := by
    apply dropWhile_eq_self_of_head
    intro c hc
    cases hj : joinNl g with
    | nil => exact absurd hj (joinNl_ne_nil_of_group hg hok)
    | cons a as =>
      rw [hj] at hc
      simp at hc
      rw [← hc]
      exact joinNl_head_of_group hg hok a (by rw [hj]; rfl)
  rw [h1, List.reverse_append]
  have h2 : (['\n'].reverse ++ (joinNl g).reverse).dropWhile isWSChar
      = (joinNl g).reverse := by
    have h3 : ['\n'].reverse ++ (joinNl g).reverse = '\n' :: (joinNl g).reverse := by
      simp
    rw [h3, List.dropWhile_cons]
    simp only [show isWSChar '\n' = true from rfl, if_true]
    exact dropWhile_eq_self_of_head (joinNl_reverse_head_of_group hg hok)
  rw [h2, List.reverse_reverse]

/-- The two overflow branches of the loop body coincide: whether or not the
line is a speaker change, the nonempty buffer is flushed and the line starts
the next buffer. -/
theorem chunkStep_eq (m : Nat) (st : ChunkState) (line : Str) :
    chunkStep m st line =
      if st.currentChunk.length + (line.length + 1) > m then
        ⟨if 0 < st.currentChunk.length then st.chunks ++ [jsTrim st.currentChunk]
           else st.chunks,
         line ++ ['\n']⟩
      else ⟨st.chunks, st.currentChunk ++ (line ++ ['\n'])⟩ := by
  unfold chunkStep
  simp only [List.length_append, List.length_cons, List.length_nil]
  by_cases hov : st.currentChunk.length + (line.length + 1) > m
  · simp only [hov, if_true]
    by_cases hsp : (speakerTest line && decide (0 < st.currentChunk.length)) = true
    · have hpos : 0 < st.currentChunk.length := by
        have := (Bool.and_eq_true _ _).mp hsp
        exact of_decide_eq_true this.2
      simp [hsp, hpos]
    · simp [hsp]
  · simp [hov]

theorem joinAll_push {cs : List Str} {g : List Str} {r : List Str}
    (hg : g ≠ []) (hr : r ≠ []) :
    joinAll (cs ++ [joinNl g]) r = joinAll cs (g ++ r) := by
  unfold joinAll
  have hgr : g ++ r ≠ [] := by simp [hg]
  by_cases hcs : cs = []
  · subst hcs
    simp only [List.nil_append, if_neg hr, if_neg hgr, if_pos rfl]
    rw [joinNl_append hg hr]
    simp [joinNl]
  · have h1 : cs ++ [joinNl g] ≠ [] := by simp
    simp only [if_neg hr, if_neg hgr, if_neg hcs, if_neg h1]
    rw [joinNl_concat (joinNl g) hcs, joinNl_append hg hr]
    simp

/-- Invariant of the chunking loop: flushing the final buffer and joining
all chunks with newlines restores the already-joined chunks followed by
all lines not yet flushed. -/
theorem chunk_fold_join (m : Nat) (ls : List Str) :
    ∀ (chunksS : List Str) (g : List Str),
    (∀ l ∈ g, lineOk l = true) → (∀ l ∈ ls, lineOk l = true) →
    (let st := ls.foldl (chunkStep m) ⟨chunksS, concatNl g⟩
     joinNl (if 0 < (jsTrim st.currentChunk).length then
        st.chunks ++ [jsTrim st.currentChunk] else st.chunks))
      = joinAll chunksS (g ++ ls) := by
  induction ls with
  | nil =>
    intro chunksS g hgok _
    simp only [List.foldl_nil, List.append_nil]
    by_cases hg : g = []
    · subst hg
      simp [concatNl, jsTrim, joinAll]
    · rw [jsTrim_concatNl hg hgok]
      have hne := joinNl_ne_nil_of_group hg hgok
      have hpos : 0 < (joinNl g).length := List.length_pos.mpr hne
      simp only [hpos, if_true]
      unfold joinAll
      simp only [if_neg hg]
      by_cases hcs : chunksS = []
      · subst hcs
        simp [joinNl]
      · simp only [if_neg hcs]
        exact joinNl_concat (joinNl g) hcs
  | cons line rest ih =>
    intro chunksS g hgok hlok
    have hlineok : lineOk line = true := hlok line (by simp)
    have hrestok : ∀ l ∈ rest, lineOk l = true := fun l hl => hlok l (by simp [hl])
    simp only [List.foldl_cons, chunkStep_eq]
    by_cases hov : (concatNl g).length + (line.length + 1) > m
    · simp only [hov, if_true]
      by_cases hg : g = []
      · subst hg
        have hzero : ¬ (0 < (concatNl ([] : List Str)).length) := by
          simp [concatNl]
        simp only [concatNl, List.map_nil, List.flatten_nil, List.length_nil,
          Nat.lt_irrefl, if_false]
        have h1 : line ++ ['\n'] = concatNl [line] := by simp [concatNl]
        rw [h1, ih chunksS [line]
          (by intro l hl; simp at hl; subst hl; exact hlineok) hrestok]
        simp
      · have hpos : 0 < (concatNl g).length := by
          apply List.length_pos.mpr
          intro hcon
          exact hg ((concatNl_eq_nil_iff g).mp hcon)
        simp only [hpos, if_true]
        rw [jsTrim_concatNl hg hgok]
        have h1 : line ++ ['\n'] = concatNl [line] := by simp [concatNl]
        rw [h1, ih (chunksS ++ [joinNl g]) [line]
          (by intro l hl; simp at hl; subst hl; exact hlineok) hrestok]
        exact joinAll_push hg (by simp)
    · simp only [hov, if_false]
      have h1 : concatNl g ++ (line ++ ['\n']) = concatNl (g ++ [line]) := by
        rw [concatNl_concat]
      rw [h1, ih chunksS (g ++ [line])
        (by
          intro l hl
          rw [List.mem_append] at hl
          rcases hl with hl | hl
          · exact hgok l hl
          · simp at hl; subst hl; exact hlineok) hrestok]
      simp

/-- C3 (counterexample): the claim fails as stated.  On the input text
consisting of a single space — one line `" "` — the chunk planner (at the
source's actual `maxChars` bound) emits no chunk at all, because every chunk
is trimmed before being emitted and the final whitespace-only buffer is
discarded; the joined chunks are the empty string, so the original line is
dropped rather than reproduced. -/
theorem splitTranscriptIntoChunks_drops_whitespace_line :
    splitLines (str " ") = [[' ']]
      ∧ splitTranscriptIntoChunks MAX_CHARS_PER_CHUNK (str " ") = []
      ∧ joinNl (splitTranscriptIntoChunks MAX_CHARS_PER_CHUNK (str " "))
          ≠ str " " := by
  refine ⟨by decide, by decide, by decide⟩

/-- C3 (amended): for every `maxChars` and every input text all of whose
lines are nonempty and neither start nor end with whitespace, concatenating
the chunks produced by `splitTranscriptIntoChunks`, joined at chunk
boundaries by newlines, reproduces the input exactly — in particular the
original line sequence, with no line dropped, duplicated, or altered. -/
theorem splitTranscriptIntoChunks_join_exact (maxChars : Nat) (t : Str)
    (h : ∀ l ∈ splitLines t, lineOk l = true) :
    joinNl (splitTranscriptIntoChunks maxChars t) = t := by
  have h0 := chunk_fold_join maxChars (splitLines t) [] []
    (by intro l hl; simp at hl) h
  simp only [] at h0
  unfold splitTranscriptIntoChunks
  simp only []
  have hc : concatNl ([] : List Str) = [] := rfl
  rw [hc] at h0
  rw [h0]
  unfold joinAll
  have hne := splitLines_ne_nil t
  simp only [List.nil_append, if_neg hne, if_pos rfl]
  exact joinNl_splitLines t

/-- C3 (witness): a concrete transcript that is split into two chunks and
reassembles exactly. -/
theorem splitTranscriptIntoChunks_join_exact_witness :
    joinNl (splitTranscriptIntoChunks 10 (str "John: hi\nAnna: yes"))
      = str "John: hi\nAnna: yes" :=
  splitTranscriptIntoChunks_join_exact 10 (str "John: hi\nAnna: yes") (by decide)

/-! The merge/dedup engine of `openaiService.ts`. -/

/-- Task priority (`TaskPriority` in `types/index.ts`). -/
inductive TaskPriority where
  | urgent | high | normal | low
deriving DecidableEq

/-- Extraction type (`ExtractionType` in `types/index.ts`). -/
inductive ExtractionType where
  | explicit | implicit
deriving DecidableEq

/-- `ExtractedTask` from `types/index.ts` / `TaskSchema`.  Confidence is a
JavaScript number constrained by the schema to `[0, 1]`; the code only
compares confidences, never computes with them, and every literal involved
is exactly representable, so `ℚ` is a faithful model. -/
structure ExtractedTask where
  title : Str
  description : Str
  suggested_assignee : Option Str
  suggested_due : Option Str
  priority : TaskPriority
  source_quote : Str
  confidence : ℚ
  extraction_type : ExtractionType
deriving DecidableEq

/-- `MeetingAnalysis` from `taskSchema.ts`. -/
structure MeetingAnalysis where
  tasks : List ExtractedTask
  meeting_summary : Str
  decisions : List Str
deriving DecidableEq

/-- JavaScript `toLowerCase` (the titles handled here are ASCII, where
`Char.toLower` agrees with it). -/
def jsToLower (s : Str) : Str := s.map Char.toLower

/-- `title.toLowerCase().trim()` — the dedup key of `deduplicateTasks`. -/
def normTitle (title : Str) : Str := jsTrim (jsToLower title)

/-- `startsWith` on the character-list model. -/
def startsWithStr : Str → Str → Bool
  | _, [] => true
  | [], _ :: _ => false
  | c :: t, d :: u => c == d && startsWithStr t u

/-- JavaScript `hay.includes(needle)`. -/
def containsStr : Str → Str → Bool
  | [], needle => needle.isEmpty
  | c :: t, needle => startsWithStr (c :: t) needle || containsStr t needle

theorem dropWhile_length_le (p : Char → Bool) (l : Str) :
    (l.dropWhile p).length ≤ l.length := by
  induction l with
  | nil => simp
  | cons c t ih =>
    rw [List.dropWhile_cons]
    split
    · exact le_trans ih (by simp)
    · simp

/-- Worker for `splitWS`: `acc` is the current token (reversed) and the flag
records whether the previous character was whitespace, so that a maximal
whitespace run produces a single separator. -/
def splitWSGo : Str → Str → Bool → List Str
  | [], acc, _ => [acc.reverse]
  | c :: rest, acc, prevWS =>
    if isWSChar c then
      if prevWS then splitWSGo rest acc true
      else acc.reverse :: splitWSGo rest [] true
    else splitWSGo rest (c :: acc) false

/-- JavaScript `s.split(/\s+/)`: split at maximal whitespace runs (leading
whitespace yields a leading empty token, exactly as in JavaScript). -/
def splitWS (s : Str) : List Str := splitWSGo s [] false

/-- First-seen deduplication, the iteration/membership behaviour of a
JavaScript `Set` built from a list. -/
def uniqueFirstAux : List Str → List Str → List Str
  | _, [] => []
  | seen, x :: xs =>
    if seen.contains x then uniqueFirstAux seen xs
    else x :: uniqueFirstAux (x :: seen) xs

/-- `[...new Set(xs)]`. -/
def uniqueFirst (xs : List Str) : List Str := uniqueFirstAux [] xs

/-- `areTitlesSimilar` from `openaiService.ts`.  The float comparison
`overlap / minLength > 0.7` is modelled by the exact integer inequality
`10 * overlap > 7 * minLength`; for the small integer operand ranges
involved, IEEE double rounding of `overlap / minLength` and of the literal
`0.7` cannot flip this comparison, so the model is exact. -/
def areTitlesSimilar (title1 title2 : Str) : Bool :=
  if title1 = title2 then true
  else if containsStr title1 title2 || containsStr title2 title1 then true
  else
    let words1 := uniqueFirst (splitWS title1)
    let words2 := uniqueFirst (splitWS title2)
    let overlap := (words1.filter (fun w => words2.contains w)).length
    let minLength := min words1.length words2.length
    decide (0 < minLength) && decide (7 * minLength < 10 * overlap)

/-- The `seen` map of `deduplicateTasks`: a JavaScript `Map` in insertion
order, modelled as an association list.  `set` updates in place when the key
exists and appends otherwise; `delete` removes the key. -/
abbrev TaskMap := List (Str × ExtractedTask)

def mapHas (m : TaskMap) (k : Str) : Bool := m.any (fun p => p.1 == k)

def mapSet (m : TaskMap) (k : Str) (v : ExtractedTask) : TaskMap :=
  if mapHas m k then m.map (fun p => if p.1 == k then (k, v) else p)
  else m ++ [(k, v)]

def mapDelete (m : TaskMap) (k : Str) : TaskMap :=
  m.filter (fun p => !(p.1 == k))

/-- The inner `for (const [existingTitle, existingTask] of seen)` loop with
its `break`: the first map entry similar to the incoming normalized title. -/
def findSimilar (seen : TaskMap) (normalizedTitle : Str) :
    Option (Str × ExtractedTask) :=
  seen.find? (fun p => areTitlesSimilar normalizedTitle p.1)

/-- One iteration of the outer loop of `deduplicateTasks`. -/
def dedupStep (seen : TaskMap) (task : ExtractedTask) : TaskMap :=
  let normalizedTitle := normTitle task.title
  match findSimilar seen normalizedTitle with
  | some (existingTitle, existingTask) =>
    if task.confidence > existingTask.confidence
        || (task.extraction_type == ExtractionType.explicit
            && existingTask.extraction_type == ExtractionType.implicit) then
      mapSet (mapDelete seen existingTitle) normalizedTitle task
    else seen
  | none => mapSet seen normalizedTitle task

/-- `deduplicateTasks` from `openaiService.ts`. -/
def deduplicateTasks (tasks : List ExtractedTask) : List ExtractedTask :=
  (tasks.foldl dedupStep []).map (·.2)

/-- Join with single spaces (`summaries.join(' ')`). -/
def joinSp : List Str → Str
  | [] => []
  | [l] => l
  | l :: ls => l ++ ' ' :: joinSp ls

/-- `mergeChunkResults` from `openaiService.ts`. -/
def mergeChunkResults (results : List MeetingAnalysis) : MeetingAnalysis :=
  let allTasks := (results.map (·.tasks)).flatten
  let allDecisions := (results.map (·.decisions)).flatten
  let summaries := results.map (·.meeting_summary)
  let deduplicatedTasks := deduplicateTasks allTasks
  let uniqueDecisions := uniqueFirst allDecisions
  let combinedSummary :=
    match summaries with
    | [s] => s
    | _ => str "Meeting covered multiple topics. " ++ joinSp summaries
  ⟨deduplicatedTasks, combinedSummary, uniqueDecisions⟩

theorem areTitlesSimilar_self (s : Str) : areTitlesSimilar s s = true := by
  simp [areTitlesSimilar]

/-- Tasks are never dropped while no incoming task is similar to a stored
key: the fold just appends every task. -/
theorem dedup_foldl_of_pairwise (tasks : List ExtractedTask) :
    ∀ seen : TaskMap,
    tasks.Pairwise
      (fun t1 t2 => areTitlesSimilar (normTitle t2.title) (normTitle t1.title)
        = false) →
    (∀ t ∈ tasks, ∀ p ∈ seen, areTitlesSimilar (normTitle t.title) p.1 = false) →
    (tasks.foldl dedupStep seen).map (·.2) = seen.map (·.2) ++ tasks := by
  induction tasks with
  | nil => intro seen _ _; simp
  | cons t rest ih =>
    intro seen hpw hdis
    have hfind : findSimilar seen (normTitle t.title) = none := by
      apply List.find?_eq_none.mpr
      intro p hp
      rw [hdis t (by simp) p hp]
      simp
    have hhas : mapHas seen (normTitle t.title) = false := by
      by_contra hcon
      rw [Bool.not_eq_false, mapHas, List.any_eq_true] at hcon
      obtain ⟨p, hp, hpk⟩ := hcon
      have hk : p.1 = normTitle t.title := eq_of_beq hpk
      have := hdis t (by simp) p hp
      rw [hk, areTitlesSimilar_self] at this
      exact Bool.true_eq_false.mp this
    have hstep : dedupStep seen t = seen ++ [(normTitle t.title, t)] := by
      simp [dedupStep, hfind, mapSet, hhas]
    rw [List.foldl_cons, hstep]
    rw [ih (seen ++ [(normTitle t.title, t)]) (List.Pairwise.of_cons hpw)
      (by
        intro t' ht' p hp
        rw [List.mem_append] at hp
        rcases hp with hp | hp
        · exact hdis t' (by simp [ht']) p hp
        · simp at hp
          rw [hp]
          exact (List.pairwise_cons.mp hpw).1 t' ht')]
    simp

theorem uniqueFirstAux_of_nodup (xs : List Str) :
    ∀ seen : List Str, xs.Nodup → (∀ x ∈ xs, x ∉ seen) →
    uniqueFirstAux seen xs = xs := by
  induction xs with
  | nil => intro seen _ _; rfl
  | cons x rest ih =>
    intro seen hnd hns
    unfold uniqueFirstAux
    have hx : seen.contains x = false := by
      by_contra hcon
      rw [Bool.not_eq_false] at hcon
      exact hns x (by simp) (List.elem_iff.mp hcon)
    rw [hx]
    simp only [Bool.false_eq_true, if_false]
    rw [ih (x :: seen) (List.Nodup.of_cons hnd)
      (by
        intro y hy
        simp only [List.mem_cons]
        push_neg
        constructor
        · intro hyx
          subst hyx
          exact (List.nodup_cons.mp hnd).1 hy
        · exact hns y (by simp [hy]))]

theorem uniqueFirst_of_nodup {xs : List Str} (h : xs.Nodup) :
    uniqueFirst xs = xs :=
  uniqueFirstAux_of_nodup xs [] h (by simp)

/-- C1 (counterexample): merge is not the identity on every singleton input.
For the `MeetingAnalysis` with no tasks, summary `"s"`, and decision list
`["x", "x"]`, `mergeChunkResults` collapses the duplicated decision, so the
output differs from the input. -/
theorem mergeChunkResults_singleton_not_id :
    mergeChunkResults [⟨[], str "s", [str "x", str "x"]⟩]
        ≠ (⟨[], str "s", [str "x", str "x"]⟩ : MeetingAnalysis)
      ∧ mergeChunkResults [⟨[], str "s", [str "x", str "x"]⟩]
        = ⟨[], str "s", [str "x"]⟩ := by
  refine ⟨by decide, by decide⟩

/-- C1 (amended): `mergeChunkResults` applied to a one-element list `[A]`
returns `A` unchanged — same candidate list, same summary, same decision
list — provided `A` is internally duplicate-free: no two of its candidates
have similar titles (under the dedup similarity test on normalized titles)
and its decisions are pairwise distinct.  When `A` itself contains
duplicates they are collapsed by the same dedup pass that handles
cross-chunk duplicates. -/
theorem mergeChunkResults_singleton_id (A : MeetingAnalysis)
    (htasks : A.tasks.Pairwise
      (fun t1 t2 => areTitlesSimilar (normTitle t2.title) (normTitle t1.title)
        = false))
    (hdec : A.decisions.Nodup) :
    mergeChunkResults [A] = A := by
  obtain ⟨tasks, summary, decisions⟩ := A
  unfold mergeChunkResults
  simp only [List.map_cons, List.map_nil, List.flatten_cons, List.flatten_nil,
    List.append_nil]
  congr 1
  · unfold deduplicateTasks
    rw [dedup_foldl_of_pairwise tasks [] htasks (by intro t _ p hp; simp at hp)]
    simp
  · exact uniqueFirst_of_nodup hdec

/-- C1 (witness): a duplicate-free concrete analysis is returned unchanged
by a singleton merge. -/
theorem mergeChunkResults_singleton_id_witness :
    mergeChunkResults
        [⟨[⟨str "alpha beta", str "", none, none, TaskPriority.high, str "",
            1, ExtractionType.explicit⟩,
           ⟨str "gamma delta", str "", none, none, TaskPriority.low, str "",
            mkRat 1 2, ExtractionType.implicit⟩],
          str "sum", [str "d1", str "d2"]⟩]
      = ⟨[⟨str "alpha beta", str "", none, none, TaskPriority.high, str "",
            1, ExtractionType.explicit⟩,
           ⟨str "gamma delta", str "", none, none, TaskPriority.low, str "",
            mkRat 1 2, ExtractionType.implicit⟩],
          str "sum", [str "d1", str "d2"]⟩ :=
  mergeChunkResults_singleton_id _ (by decide) (by decide)

/-- The chunk-1 candidate of the specification's dedup scenario. -/
def scenarioTask1 : ExtractedTask :=
  ⟨str "Update database schema for new user fields", str "", none, none,
    TaskPriority.normal, str "", mkRat 3 5, ExtractionType.implicit⟩

/-- The chunk-2 candidate of the specification's dedup scenario. -/
def scenarioTask2 : ExtractedTask :=
  ⟨str "Update database schema", str "", none, none,
    TaskPriority.normal, str "", 1, ExtractionType.explicit⟩

/-- Chunk-1 result of the scenario. -/
def scenarioChunk1 : MeetingAnalysis := ⟨[scenarioTask1], str "First half.", []⟩

/-- Chunk-2 result of the scenario. -/
def scenarioChunk2 : MeetingAnalysis := ⟨[scenarioTask2], str "Second half.", []⟩

/-- On a similar pair, the dedup fold reduces to a single decision on the
replacement condition of `deduplicateTasks`. -/
theorem deduplicateTasks_pair (t1 t2 : ExtractedTask)
    (hsim : areTitlesSimilar (normTitle t2.title) (normTitle t1.title) = true) :
    deduplicateTasks [t1, t2] =
      if (decide (t1.confidence < t2.confidence)
          || (t2.extraction_type == ExtractionType.explicit
              && t1.extraction_type == ExtractionType.implicit)) = true
      then [t2] else [t1] := by
  unfold deduplicateTasks
  have h1 : dedupStep [] t1 = [(normTitle t1.title, t1)] := rfl
  rw [List.foldl_cons, List.foldl_cons, List.foldl_nil, h1]
  have h2 : findSimilar [(normTitle t1.title, t1)] (normTitle t2.title)
      = some (normTitle t1.title, t1) := by
    simp [findSimilar, List.find?, hsim]
  simp only [dedupStep, h2]
  by_cases hc : (decide (t1.confidence < t2.confidence)
      || (t2.extraction_type == ExtractionType.explicit
          && t1.extraction_type == ExtractionType.implicit)) = true
  · have : (decide (t2.confidence > t1.confidence)
        || (t2.extraction_type == ExtractionType.explicit
            && t1.extraction_type == ExtractionType.implicit)) = true := hc
    rw [this]
    simp only [if_true, hc]
    simp [mapDelete, mapSet, mapHas]
  · have : (decide (t2.confidence > t1.confidence)
        || (t2.extraction_type == ExtractionType.explicit
            && t1.extraction_type == ExtractionType.implicit)) = false := by
      simpa using hc
    rw [this]
    simp [hc]

/-- C5: whenever two candidates satisfying the schema invariants
(`explicit ⇒ confidence = 1`, confidence ≤ 1) are duplicates under
`areTitlesSimilar`, exactly one survives `deduplicateTasks`; the survivor is
the strictly-higher-confidence one, or the explicit one over the implicit
one on a confidence tie — in both processing orders, so a later stronger
candidate displaces an earlier-kept one.  Additionally, the specification's
concrete scenario: merging the chunk-1 candidate "Update database schema for
new user fields" (confidence 0.6, implicit) with the chunk-2 candidate
"Update database schema" (confidence 1.0, explicit) keeps exactly the
explicit candidate. -/
theorem deduplicateTasks_keeps_stronger :
    (∀ t1 t2 : ExtractedTask,
      (t1.extraction_type = ExtractionType.explicit → t1.confidence = 1) →
      (t2.extraction_type = ExtractionType.explicit → t2.confidence = 1) →
      t1.confidence ≤ 1 → t2.confidence ≤ 1 →
      areTitlesSimilar (normTitle t2.title) (normTitle t1.title) = true →
      (deduplicateTasks [t1, t2] = [t1] ∨ deduplicateTasks [t1, t2] = [t2])
      ∧ (t1.confidence < t2.confidence → deduplicateTasks [t1, t2] = [t2])
      ∧ (t2.confidence < t1.confidence → deduplicateTasks [t1, t2] = [t1])
      ∧ (t1.confidence = t2.confidence →
          t2.extraction_type = ExtractionType.explicit →
          t1.extraction_type = ExtractionType.implicit →
          deduplicateTasks [t1, t2] = [t2])
      ∧ (t1.confidence = t2.confidence →
          t1.extraction_type = ExtractionType.explicit →
          t2.extraction_type = ExtractionType.implicit →
          deduplicateTasks [t1, t2] = [t1]))
    ∧ (mergeChunkResults [scenarioChunk1, scenarioChunk2]).tasks
        = [scenarioTask2] := by
  constructor
  · intro t1 t2 hx1 hx2 hb1 hb2 hsim
    rw [deduplicateTasks_pair t1 t2 hsim]
    refine ⟨?_, ?_, ?_, ?_, ?_⟩
    · by_cases hc : (decide (t1.confidence < t2.confidence)
          || (t2.extraction_type == ExtractionType.explicit
              && t1.extraction_type == ExtractionType.implicit)) = true
      · right; rw [hc]; simp
      · left
        rw [Bool.not_eq_true] at hc
        rw [hc]
        simp
    · intro hlt
      rw [decide_eq_true hlt]
      simp
    · intro hlt
      have hd : decide (t1.confidence < t2.confidence) = false := by
        simp [not_lt_of_gt hlt]
      have he : (t2.extraction_type == ExtractionType.explicit
          && t1.extraction_type == ExtractionType.implicit) = false := by
        by_contra hcon
        rw [Bool.not_eq_false, Bool.and_eq_true, beq_iff_eq] at hcon
        have := hx2 hcon.1
        rw [this] at hlt
        exact absurd hb1 (not_le_of_gt hlt)
      rw [hd, he]
      simp
    · intro heq hex2 him1
      have : (t2.extraction_type == ExtractionType.explicit
          && t1.extraction_type == ExtractionType.implicit) = true := by
        rw [hex2, him1]
        rfl
      rw [this]
      simp
    · intro heq hex1 him2
      have hd : decide (t1.confidence < t2.confidence) = false := by
        simp [heq]
      have he : (t2.extraction_type == ExtractionType.explicit
          && t1.extraction_type == ExtractionType.implicit) = false := by
        rw [him2]
        rfl
      rw [hd, he]
      simp
  · decide

/-- C5 (witness): the pairwise survivor rule applied to the concrete
scenario pair, in the order where the stronger candidate arrives second and
displaces the earlier-kept one. -/
theorem deduplicateTasks_keeps_stronger_witness :
    deduplicateTasks [scenarioTask1, scenarioTask2] = [scenarioTask2] :=
  (deduplicateTasks_keeps_stronger.1 scenarioTask1 scenarioTask2
    (by decide) (by decide) (by decide) (by decide) (by decide)).2.1 (by decide)

/-! The task lifecycle store of `firestoreService.ts`. -/

/-- `PendingTasksData['status']`. -/
inductive SetStatus where
  | pending | processing | completed
deriving DecidableEq

/-- JavaScript truthiness of an optional string field (absent and the empty
string are falsy). -/
def jsTruthyStr : Option Str → Bool
  | none => false
  | some s => !s.isEmpty

/-- A task as stored in a pending-task document:
`ExtractedTaskWithConfig` plus the dynamic resolution fields written by
`markTaskAsCreated` / `markTaskAsDismissed`. -/
structure StoredTask where
  task : ExtractedTask
  clickupListId : Str
  clickupTaskId : Option Str
  createdAtIso : Option Str
  dismissed : Bool
  dismissedAtIso : Option Str
deriving DecidableEq

/-- A pending-task document (`PendingTasksData`); the fields not consulted
by the lifecycle operations (folder config, meeting info, analysis) are
omitted. -/
structure PendingDoc where
  fileId : Str
  folderId : Str
  tasks : List StoredTask
  status : SetStatus
deriving DecidableEq

/-- `areAllTasksResolved` from `firestoreService.ts`:
`tasks.every(t => t.clickupTaskId || t.dismissed)` with JavaScript
truthiness. -/
def areAllTasksResolved (tasks : List StoredTask) : Bool :=
  tasks.all (fun t => jsTruthyStr t.clickupTaskId || t.dismissed)

/-- In-place update of the element at an index (JavaScript
`tasks[taskIndex].field = ...` on a copied array). -/
def modifyIdx {α : Type} : List α → Nat → (α → α) → List α
  | [], _, _ => []
  | x :: xs, 0, f => f x :: xs
  | x :: xs, n + 1, f => x :: modifyIdx xs n f

/-- The transaction body of `markTaskAsCreated` for an existing document
(the store-level `NotFound` check for a missing document id is handled at
the store layer; a negative `taskIndex` fails the same index guard as an
out-of-range one).  `nowIso` stands for `new Date().toISOString()`. -/
def markTaskAsCreated (doc : PendingDoc) (taskIndex : Nat)
    (clickupTaskId nowIso : Str) : Except Str PendingDoc :=
  if doc.tasks.length ≤ taskIndex then Except.error (str "Invalid task index")
  else
    let tasks := modifyIdx doc.tasks taskIndex
      (fun t => { t with clickupTaskId := some clickupTaskId,
                         createdAtIso := some nowIso })
    Except.ok { doc with
      tasks := tasks,
      status := if areAllTasksResolved tasks then SetStatus.completed
                else doc.status }

/-- The transaction body of `markTaskAsDismissed` for an existing
document. -/
def markTaskAsDismissed (doc : PendingDoc) (taskIndex : Nat)
    (nowIso : Str) : Except Str PendingDoc :=
  if doc.tasks.length ≤ taskIndex then Except.error (str "Invalid task index")
  else
    let tasks := modifyIdx doc.tasks taskIndex
      (fun t => { t with dismissed := true, dismissedAtIso := some nowIso })
    Except.ok { doc with
      tasks := tasks,
      status := if areAllTasksResolved tasks then SetStatus.completed
                else doc.status }

/-- The pending-tasks collection: documents keyed by their generated id, in
creation order. -/
abbrev Store := List (Str × PendingDoc)

/-- `isFileAlreadyProcessed`: the query
`where('fileId', '==', fileId).limit(1)` is nonempty — any status counts. -/
def isFileAlreadyProcessed (store : Store) (fileId : Str) : Bool :=
  store.any (fun p => p.2.fileId == fileId)

/-- `storePendingTasks`: create a new document with status `'pending'`
under a fresh id. -/
def storePendingTasks (store : Store) (pendingId fileId folderId : Str)
    (tasks : List StoredTask) : Store :=
  store ++ [(pendingId, ⟨fileId, folderId, tasks, SetStatus.pending⟩)]

/-- `updatePendingTasksStatus`: overwrite the status field of the document
with the given id. -/
def updatePendingTasksStatus (store : Store) (pendingId : Str)
    (status : SetStatus) : Store :=
  store.map (fun p =>
    if p.1 == pendingId then (p.1, { p.2 with status := status }) else p)

theorem modifyIdx_get? {α : Type} (l : List α) (i : Nat) (f : α → α) :
    (modifyIdx l i f).get? i = (l.get? i).map f := by
  induction l generalizing i with
  | nil => simp [modifyIdx]
  | cons x xs ih =>
    cases i with
    | zero => simp [modifyIdx]
    | succ n => simpa [modifyIdx] using ih n

/-- A task whose resolution has not been decided. -/
def unresolvedTask : StoredTask :=
  ⟨⟨str "Ship the report", str "", none, none, TaskPriority.normal, str "",
     1, ExtractionType.explicit⟩,
   str "list1", none, none, false, none⟩

/-- A candidate already resolved as created with external id `"a"`. -/
def createdTaskA : StoredTask :=
  ⟨⟨str "Ship the report", str "", none, none, TaskPriority.normal, str "",
     1, ExtractionType.explicit⟩,
   str "list1", some (str "a"), some (str "T0"), false, none⟩

/-- A completed one-candidate set whose candidate carries external id
`"a"`. -/
def completedDocA : PendingDoc :=
  ⟨str "file1", str "folder1", [createdTaskA], SetStatus.completed⟩

/-- C2 (counterexample): re-resolving an already-terminal candidate is
neither a no-op nor an error.  On a completed set whose only candidate was
created with external id `"a"`, calling `markTaskAsCreated` again at the
same index with id `"b"` succeeds and silently overwrites the stored
external id. -/
theorem markTaskAsCreated_silently_overwrites :
    markTaskAsCreated completedDocA 0 (str "b") (str "T1")
        = Except.ok ⟨str "file1", str "folder1",
            [⟨⟨str "Ship the report", str "", none, none, TaskPriority.normal,
                str "", 1, ExtractionType.explicit⟩,
              str "list1", some (str "b"), some (str "T1"), false, none⟩],
            SetStatus.completed⟩
      ∧ markTaskAsCreated completedDocA 0 (str "b") (str "T1")
          ≠ Except.ok completedDocA := by
  refine ⟨by decide, by decide⟩

/-- C2 (amended): a single-candidate resolution operation on a valid index
always succeeds; afterwards the set's status is `'completed'` exactly when
every candidate is terminal, and is left at its previous value otherwise;
the candidate at the resolved index is terminal afterwards (so a terminal
candidate stays terminal under further resolutions with a nonempty external
id) — but re-resolution silently overwrites the stored resolution fields
rather than being a no-op or an explicit error. -/
theorem markTask_resolution_spec (doc : PendingDoc) (i : Nat)
    (id nowIso : Str) (hi : i < doc.tasks.length) (hid : id ≠ []) :
    ((markTaskAsCreated doc i id nowIso).isOk = true)
    ∧ (∀ d1, markTaskAsCreated doc i id nowIso = Except.ok d1 →
        d1.status = (if areAllTasksResolved d1.tasks then SetStatus.completed
          else doc.status)
        ∧ ∀ t', d1.tasks.get? i = some t' →
            (jsTruthyStr t'.clickupTaskId || t'.dismissed) = true)
    ∧ ((markTaskAsDismissed doc i nowIso).isOk = true)
    ∧ (∀ d2, markTaskAsDismissed doc i nowIso = Except.ok d2 →
        d2.status = (if areAllTasksResolved d2.tasks then SetStatus.completed
          else doc.status)
        ∧ ∀ t', d2.tasks.get? i = some t' →
            (jsTruthyStr t'.clickupTaskId || t'.dismissed) = true) := by
  have hguard : ¬ (doc.tasks.length ≤ i) := Nat.not_le.mpr hi
  refine ⟨?_, ?_, ?_, ?_⟩
  · simp [markTaskAsCreated, hguard, Except.isOk, Except.toBool]
  · intro d1 hd1
    simp only [markTaskAsCreated, if_neg hguard, Except.ok.injEq] at hd1
    subst hd1
    refine ⟨rfl, ?_⟩
    intro t' ht'
    rw [modifyIdx_get?] at ht'
    cases hg : doc.tasks.get? i with
    | none => rw [hg] at ht'; simp at ht'
    | some t =>
      rw [hg] at ht'
      simp at ht'
      rw [← ht']
      simp [jsTruthyStr, hid]
  · simp [markTaskAsDismissed, hguard, Except.isOk, Except.toBool]
  · intro d2 hd2
    simp only [markTaskAsDismissed, if_neg hguard, Except.ok.injEq] at hd2
    subst hd2
    refine ⟨rfl, ?_⟩
    intro t' ht'
    rw [modifyIdx_get?] at ht'
    cases hg : doc.tasks.get? i with
    | none => rw [hg] at ht'; simp at ht'
    | some t =>
      rw [hg] at ht'
      simp at ht'
      rw [← ht']
      simp

/-- C2 (witness): both resolution operations succeed on a concrete valid
index. -/
theorem markTask_resolution_spec_witness :
    (markTaskAsCreated completedDocA 0 (str "x") (str "T2")).isOk = true
      ∧ (markTaskAsDismissed completedDocA 0 (str "T2")).isOk = true :=
  ⟨(markTask_resolution_spec completedDocA 0 (str "x") (str "T2")
      (by decide) (by decide)).1,
   (markTask_resolution_spec completedDocA 0 (str "x") (str "T2")
      (by decide) (by decide)).2.2.1⟩

/-- C7: `isFileAlreadyProcessed` is true for a file id exactly when some
pending-task set with that file id exists, regardless of the set's status:
it becomes true immediately after `storePendingTasks` creates a set for the
file, and it is invariant under every status change performed by
`updatePendingTasksStatus`. -/
theorem isFileAlreadyProcessed_spec :
    (∀ (store : Store) (pendingId fileId folderId : Str)
        (tasks : List StoredTask),
      isFileAlreadyProcessed
        (storePendingTasks store pendingId fileId folderId tasks) fileId
        = true)
    ∧ (∀ (store : Store) (pendingId : Str) (status : SetStatus) (fileId : Str),
      isFileAlreadyProcessed (updatePendingTasksStatus store pendingId status)
          fileId
        = isFileAlreadyProcessed store fileId)
    ∧ (∀ (store : Store) (fileId : Str),
      isFileAlreadyProcessed store fileId = true
        ↔ ∃ p ∈ store, p.2.fileId = fileId) := by
  refine ⟨?_, ?_, ?_⟩
  · intro store pendingId fileId folderId tasks
    simp [isFileAlreadyProcessed, storePendingTasks]
  · intro store pendingId status fileId
    induction store with
    | nil => rfl
    | cons p rest ih =>
      unfold isFileAlreadyProcessed updatePendingTasksStatus at ih ⊢
      simp only [List.map_cons, List.any_cons]
      rw [ih]
      by_cases hp : (p.1 == pendingId) = true
      · simp [hp]
      · rw [Bool.not_eq_true] at hp
        simp [hp]
  · intro store fileId
    constructor
    · intro h
      rw [isFileAlreadyProcessed, List.any_eq_true] at h
      obtain ⟨p, hp, hq⟩ := h
      exact ⟨p, hp, eq_of_beq hq⟩
    · rintro ⟨p, hp, hq⟩
      rw [isFileAlreadyProcessed, List.any_eq_true]
      refine ⟨p, hp, ?_⟩
      rw [hq]
      simp

/-! The date resolver of `utils/dateResolver.ts`.  Calendar dates are
modelled as day numbers via the standard civil-calendar conversion.  All
civil arithmetic runs in a year coordinate shifted by `SHIFT = 1200000`
years so that every year date-fns `parseISO` can produce (extended ISO
years run to ±999999) is a `Nat`.  The shift is a whole number of 400-year
cycles, each exactly 146097 days (a multiple of 7), so leap-year structure
and weekday arithmetic are untouched by the shift. -/

/-- The year shift: a multiple of 400. -/
def SHIFT : Nat := 1200000

/-- Gregorian leap year; correct on shifted years as well, since `SHIFT`
is a multiple of 400. -/
def isLeapYear (y : Nat) : Bool :=
  y % 4 == 0 && (y % 100 != 0 || y % 400 == 0)

/-- Number of days in month `m` (1–12) of (possibly shifted) year `y`. -/
def daysInMonth (y m : Nat) : Nat :=
  if m == 2 then (if isLeapYear y then 29 else 28)
  else if m == 4 || m == 6 || m == 9 || m == 11 then 30
  else 31

/-- Serial day number of the civil date with SHIFTED year `ys`
(Hinnant's `days_from_civil`). -/
def dayNumberShifted (ys m d : Nat) : Nat :=
  let y' := if m ≤ 2 then ys - 1 else ys
  let era := y' / 400
  let yoe := y' % 400
  let mp := (m + 9) % 12
  let doy := (153 * mp + 2) / 5 + (d - 1)
  let doe := yoe * 365 + yoe / 4 - yoe / 100 + doy
  era * 146097 + doe

/-- Serial day number of the civil date `y-m-d` for a non-negative actual
year `y`. -/
def dayNumber (y m d : Nat) : Nat := dayNumberShifted (y + SHIFT) m d

/-- Serial day number for an arbitrary (possibly negative) actual year;
every year reachable through `parseISO` satisfies `-SHIFT < y`. -/
def dayNumberZ (y : Int) (m d : Nat) : Nat :=
  dayNumberShifted (y + SHIFT).toNat m d

/-- Inverse of `dayNumberShifted` (Hinnant's `civil_from_days`); the
returned year is in the SHIFTED coordinate.  The resolver's helpers only
add to the year and test leap years, both invariant under the shift. -/
def civilFromDayNumber (z : Nat) : Nat × Nat × Nat :=
  let era := z / 146097
  let doe := z % 146097
  let yoe := (doe - doe / 1460 + doe / 36524 - doe / 146096) / 365
  let doy := doe - (365 * yoe + yoe / 4 - yoe / 100)
  let mp := (5 * doy + 2) / 153
  let d := doy - (153 * mp + 2) / 5 + 1
  let m := if mp < 10 then mp + 3 else mp - 9
  let ys := if m ≤ 2 then era * 400 + yoe + 1 else era * 400 + yoe
  (ys, m, d)

/-- JavaScript `Date.getDay()`: 0 = Sunday … 6 = Saturday.  (Calibrated on
the epoch; the shift, a multiple of 146097 ≡ 0 (mod 7) days, cancels.) -/
def getDay (serial : Nat) : Nat := (serial + 3) % 7

/-- Numeric value of a digit string. -/
def digitsToNat (ds : Str) : Nat :=
  ds.foldl (fun a c => 10 * a + (c.toNat - 48)) 0

/-- Zero-padded decimal rendering. -/
def padNat (n width : Nat) : Str :=
  let ds := Nat.toDigits 10 n
  List.replicate (width - ds.length) '0' ++ ds

/-- date-fns `format(date, 'yyyy-MM-dd')`.  The `yyyy` token renders the
era year: for signed year ≤ 0 it prints `1 - year`, exactly as date-fns'
year formatter does. -/
def formatDate (serial : Nat) : Str :=
  match civilFromDayNumber serial with
  | (ys, m, d) =>
    let signedYear : Int := (ys : Int) - (SHIFT : Int)
    let displayYear : Nat :=
      if 0 < signedYear then signedYear.toNat else (1 - signedYear).toNat
    padNat displayYear 4 ++ '-' :: (padNat m 2 ++ '-' :: padNat d 2)

/-! `parseISO` from date-fns (`parseISO/index.ts`, identical algorithm in
v2 and v3), modelled in full: `splitDateString`, `parseYear` (with the
default `additionalDigits = 2`), `parseDate` (calendar, ordinal, ISO-week
and basic formats), `parseTime` (fractional units) and `parseTimezone`,
followed by the `Date` range clip.  Modelling notes: (1) the runtime's
local timezone is taken to be UTC — the Cloud Functions default this
program runs under — so the local calendar day of an instant is its UTC
day; without an explicit offset the library re-reads the UTC fields as
local, which is timezone-independent and equals the same formula with
offset 0.  (2) Fractional time units are exact rationals where the library
goes through `parseFloat` doubles: a double's relative error below 2⁻⁵² on
a time value below 25 hours is under 10⁻⁷ ms and cannot move a result
across a day boundary for any decimal fraction that is not itself exactly
on one.  (3) JavaScript's truncating `%` agrees with `Int.emod` on the
`== 0` divisibility tests of the leap-year check. -/

/-- Split at every character satisfying `p` (JavaScript `split` with a
single-character-class regex). -/
def splitOnPred (p : Char → Bool) : Str → List Str
  | [] => [[]]
  | c :: rest =>
    if p c then [] :: splitOnPred p rest
    else
      match splitOnPred p rest with
      | [] => [[c]]
      | l :: ls => (c :: l) :: ls

/-- `splitDateString`: cut the input into date, time and timezone parts;
the empty string stands for an absent part, which the caller tests for
truthiness exactly as the source does (`""` and `undefined` are both
falsy).  The timezone token starts at the first `Z`, `+` or `-` of the
time string (`/([Z+-].*)$/`, case-sensitive), while the date/time cut also
recognises a lowercase `z` (`/[Z ]/i`). -/
def splitDateString (s : Str) : Str × Str × Str :=
  let array := splitOnPred (fun c => c == 'T' || c == ' ') s
  if 2 < array.length then ([], [], [])
  else if (array.headD []).any (fun c => c == ':') then ([], [], [])
  else
    let date0 := array.headD []
    let time0 := (array.drop 1).headD []
    let (date1, time1) :=
      if date0.any (fun c => c == 'Z' || c == 'z' || c == ' ') then
        let d := (splitOnPred (fun c => c == 'Z' || c == 'z' || c == ' ') s).headD []
        (d, s.drop d.length)
      else (date0, time0)
    if time1.isEmpty then (date1, [], [])
    else
      match time1.findIdx? (fun c => c == 'Z' || c == '+' || c == '-') with
      | none => (date1, time1, [])
      | some p => (date1, time1.take p, time1.drop p)

/-- `parseYear` with `additionalDigits = 2`:
`^(?:(\d{4}|[+-]\d{6})|(\d{2}|[+-]\d{4})$)`.  A two-digit (or signed
four-digit) form is a century, scaled by 100 and anchored at the end; the
four-digit (or signed six-digit) form leaves the remainder for
`parseDate`. -/
def parseYearM (s : Str) : Option (Int × Str) :=
  if 4 ≤ s.length && (s.take 4).all Char.isDigit then
    some ((digitsToNat (s.take 4) : Int), s.drop 4)
  else if s.headD ' ' == '+' || s.headD ' ' == '-' then
    let sign : Int := if s.headD ' ' == '-' then -1 else 1
    let rest := s.drop 1
    if 6 ≤ rest.length && (rest.take 6).all Char.isDigit then
      some (sign * (digitsToNat (rest.take 6) : Int), rest.drop 6)
    else if rest.length == 4 && rest.all Char.isDigit then
      some (sign * (digitsToNat rest : Int) * 100, [])
    else none
  else if s.length == 2 && s.all Char.isDigit then
    some ((digitsToNat s : Int) * 100, [])
  else none

/-- The shapes accepted by the rest-of-date regex
`^-?(?:(\d{3})|(\d{2})(?:-?(\d{2}))?|W(\d{2})(?:-?(\d))?|)$`. -/
inductive DateRest where
  | blank
  | ordinal (ddd : Nat)
  | monthOnly (mm : Nat)
  | monthDay (mm dd : Nat)
  | week (ww : Nat) (d : Option Nat)

/-- Anchored match of the rest-of-date regex (the alternatives have
pairwise-distinct shapes, so the regex's preference order collapses to a
shape dispatch). -/
def matchDateRest (r0 : Str) : Option DateRest :=
  let r := if r0.headD ' ' == '-' then r0.drop 1 else r0
  match r with
  | [] => some DateRest.blank
  | ['W', a, b] =>
    if a.isDigit && b.isDigit then some (DateRest.week (digitsToNat [a, b]) none)
    else none
  | ['W', a, b, c] =>
    if a.isDigit && b.isDigit && c.isDigit then
      some (DateRest.week (digitsToNat [a, b]) (some (digitsToNat [c])))
    else none
  | ['W', a, b, '-', c] =>
    if a.isDigit && b.isDigit && c.isDigit then
      some (DateRest.week (digitsToNat [a, b]) (some (digitsToNat [c])))
    else none
  | [a, b] =>
    if a.isDigit && b.isDigit then some (DateRest.monthOnly (digitsToNat [a, b]))
    else none
  | [a, b, c] =>
    if a.isDigit && b.isDigit && c.isDigit then
      some (DateRest.ordinal (digitsToNat [a, b, c]))
    else none
  | [a, b, c, d] =>
    if a.isDigit && b.isDigit && c.isDigit && d.isDigit then
      some (DateRest.monthDay (digitsToNat [a, b]) (digitsToNat [c, d]))
    else none
  | [a, b, '-', c, d] =>
    if a.isDigit && b.isDigit && c.isDigit && d.isDigit then
      some (DateRest.monthDay (digitsToNat [a, b]) (digitsToNat [c, d]))
    else none
  | _ => none

/-- `isLeapYearIndex` on a signed year; `Int.emod` agrees with
JavaScript's truncating `%` on every `== 0` test. -/
def isLeapYearIndexZ (y : Int) : Bool :=
  y % 400 == 0 || (y % 4 == 0 && y % 100 != 0)

/-- `daysInMonths[month] || (leap ? 29 : 28)` from `validateDate`
(`month0` is 0-based). -/
def monthMaxDay (y : Int) (month0 : Nat) : Nat :=
  if month0 == 1 then (if isLeapYearIndexZ y then 29 else 28)
  else if month0 == 3 || month0 == 5 || month0 == 8 || month0 == 10 then 30
  else 31

/-- `parseDate`: validate and build the midnight serial.  A missing
capture counts as 1 (`parseDateUnit`); the calendar day is
`max(dayOfYear, day)` from the 1st of the (0-based) month, exactly the
source's `setUTCFullYear(year, month, Math.max(dayOfYear, day))` with its
day-overflow semantics; the ISO-week path is `dayOfISOWeekYear`. -/
def parseDateM (rest : Str) (year : Int) : Option Nat :=
  match matchDateRest rest with
  | none => none
  | some (DateRest.week ww d5) =>
    let week0 : Int := (ww : Int) - 1
    let day0 : Int := ((d5.getD 1 : Nat) : Int) - 1
    if 0 ≤ week0 && week0 ≤ 52 && 0 ≤ day0 && day0 ≤ 6 then
      let jan4 := dayNumberZ year 1 4
      let dow := getDay jan4
      let dow7 : Nat := if dow == 0 then 7 else dow
      let diff : Int := week0 * 7 + day0 + 1 - (dow7 : Int)
      some ((jan4 : Int) + diff).toNat
    else none
  | some dr =>
    let dayOfYear : Nat := match dr with | DateRest.ordinal n => n | _ => 1
    let mm : Nat :=
      match dr with
      | DateRest.monthOnly v => v
      | DateRest.monthDay v _ => v
      | _ => 1
    let month0 : Int := (mm : Int) - 1
    let day : Nat := match dr with | DateRest.monthDay _ dd => dd | _ => 1
    if (0 ≤ month0 && month0 ≤ 11 && 1 ≤ day && day ≤ monthMaxDay year month0.toNat)
        && (1 ≤ dayOfYear
            && dayOfYear ≤ (if isLeapYearIndexZ year then 366 else 365)) then
      some (dayNumberZ year (month0.toNat + 1) 1 + (max dayOfYear day) - 1)
    else none

/-- The exact time-of-day value in milliseconds, kept as
`intMs + fracNum / 10^pow` so every later step is integer arithmetic. -/
structure TimeVal where
  intMs : Nat
  fracNum : Nat
  pow : Nat
deriving DecidableEq

/-- Exact rational value of one parsed unit `ip` + fraction
(`fnum / 10^p`), as used by the `validateTime` comparisons. -/
def unitQ (ip fnum p : Nat) : ℚ := mkRat (ip * 10 ^ p + fnum) (10 ^ p)

/-- One time unit `\d{2}(?:[.,]\d*)?` (greedy fraction): integer part,
fraction numerator, fraction length, and the remainder. -/
def parseTimeUnitM (s : Str) : Option (Nat × Nat × Nat × Str) :=
  match s with
  | a :: b :: rest =>
    if a.isDigit && b.isDigit then
      let ip := digitsToNat [a, b]
      match rest with
      | c :: rest2 =>
        if c == '.' || c == ',' then
          let fd := rest2.takeWhile Char.isDigit
          some (ip, digitsToNat fd, fd.length, rest2.drop fd.length)
        else some (ip, 0, 0, rest)
      | [] => some (ip, 0, 0, [])
    else none
  | _ => none

/-- `parseTime`: hours, then two optional `:?`-separated units, anchored;
validated by `validateTime` (24 requires 00:00; fractional hours below 25
are allowed).  The returned value is
`hours·3600000 + minutes·60000 + seconds·1000` ms, computed exactly over
the common denominator `10^L` (`(a + f/10^p)·k = (a·k·10^L + f·10^(L-p)·k) / 10^L`). -/
def parseTimeM (t : Str) : Option TimeVal :=
  let step (r : Str) : Option (Nat × Nat × Nat × Str) :=
    if r.isEmpty then some (0, 0, 0, [])
    else parseTimeUnitM (if r.headD ' ' == ':' then r.drop 1 else r)
  match parseTimeUnitM t with
  | none => none
  | some (ih, fh, ph, r1) =>
    match step r1 with
    | none => none
    | some (im, fm, pm, r2) =>
      match step r2 with
      | none => none
      | some (is, fs, ps, r3) =>
        if r3.isEmpty then
          let hQ := unitQ ih fh ph
          let mQ := unitQ im fm pm
          let sQ := unitQ is fs ps
          if (if hQ == (24 : ℚ) then mQ == 0 && sQ == 0
              else decide (0 ≤ sQ) && decide (sQ < 60) && decide (0 ≤ mQ)
                && decide (mQ < 60) && decide (0 ≤ hQ) && decide (hQ < 25)) then
            let L := max ph (max pm ps)
            some ⟨ih * 3600000 + im * 60000 + is * 1000,
                  fh * 10 ^ (L - ph) * 3600000 + fm * 10 ^ (L - pm) * 60000
                    + fs * 10 ^ (L - ps) * 1000,
                  L⟩
          else none
        else none

/-- `parseTimezone`: `"Z"` is UTC; `^([+-])(\d{2})(?::?(\d{2}))?$` gives a
signed offset with only the minutes validated (≤ 59 → else `NaN`); any
string the regex rejects yields offset 0, exactly as the source's
`if (!captures) return 0`. -/
def parseTimezoneM (tz : Str) : Option Int :=
  if tz = str "Z" then some 0
  else
    match tz with
    | c :: h1 :: h2 :: rest =>
      if (c == '+' || c == '-') && h1.isDigit && h2.isDigit then
        let hours : Int := digitsToNat [h1, h2]
        let minutesOpt : Option Nat :=
          match rest with
          | [] => some 0
          | [':', m1, m2] =>
            if m1.isDigit && m2.isDigit then some (digitsToNat [m1, m2]) else none
          | [m1, m2] =>
            if m1.isDigit && m2.isDigit then some (digitsToNat [m1, m2]) else none
          | _ => none
        match minutesOpt with
        | none => some 0
        | some minutes =>
          if minutes ≤ 59 then
            let sign : Int := if c == '+' then -1 else 1
            some (sign * (hours * 3600000 + (minutes : Int) * 60000))
          else none
      else some 0
    | _ => some 0

/-- The 1970 epoch in the shifted serial. -/
def EPOCH : Nat := dayNumber 1970 1 1

/-- `parseISO` from date-fns, returning the local calendar day (as a
shifted serial) of the parsed instant, or `none` for every input the
library turns into an `Invalid Date`.  The `Date` range clip rejects
instants beyond ±8.64·10¹⁵ ms (`TimeClip`, which then truncates toward
zero); the date part alone is checked first (`isNaN(date.getTime())`),
exactly as in the source.  The total instant
`timestamp + time + offset` is the exact rational `totalNum / 10^pow`. -/
def parseISO (s : Str) : Option Nat :=
  match splitDateString s with
  | (dateStr, timeStr, tzStr) =>
    if dateStr.isEmpty then none
    else
      match parseYearM dateStr with
      | none => none
      | some (year, restDateString) =>
        match parseDateM restDateString year with
        | none => none
        | some dateSerial =>
          let base : Int := (dateSerial : Int) - (EPOCH : Int)
          if 100000000 < base.natAbs then none
          else
            match (if timeStr.isEmpty then some (⟨0, 0, 0⟩ : TimeVal)
                   else parseTimeM timeStr) with
            | none => none
            | some tv =>
              match (if tzStr.isEmpty then some (0 : Int)
                     else parseTimezoneM tzStr) with
              | none => none
              | some offset =>
                let den : Nat := 10 ^ tv.pow
                let totalNum : Int :=
                  (base * 86400000 + offset + (tv.intMs : Int)) * (den : Int)
                    + (tv.fracNum : Int)
                if 8640000000000000 * den < totalNum.natAbs then none
                else
                  let clipped : Int := Int.tdiv totalNum (den : Int)
                  let day1970 : Int := clipped.fdiv 86400000
                  some (day1970 + (EPOCH : Int)).toNat

/-- `getDayIndex` from `dateResolver.ts`
(`days[dayName.toLowerCase()] ?? 0`). -/
def getDayIndex (dayName : Str) : Nat :=
  let k := jsToLower dayName
  if k = str "sunday" then 0
  else if k = str "monday" then 1
  else if k = str "tuesday" then 2
  else if k = str "wednesday" then 3
  else if k = str "thursday" then 4
  else if k = str "friday" then 5
  else if k = str "saturday" then 6
  else 0

/-- `getNextDayOfWeek`: strictly future occurrence of the named weekday. -/
def getNextDayOfWeek (fromDate : Nat) (dayName : Str) : Nat :=
  let targetDay := getDayIndex dayName
  let currentDay := getDay fromDate
  let daysToAdd : Int := (targetDay : Int) - (currentDay : Int)
  let daysToAdd := if daysToAdd ≤ 0 then daysToAdd + 7 else daysToAdd
  ((fromDate : Int) + daysToAdd).toNat

/-- date-fns `setDay(date, day, { weekStartsOn: 1 })` for `day` in 0–6. -/
def setDayMonStart (date day : Nat) : Nat :=
  let currentDay := getDay date
  let diff : Int := ((day + 6) % 7 : Nat) - (((currentDay + 6) % 7 : Nat) : Int)
  ((date : Int) + diff).toNat

/-- `getThisDayOfWeek`: this week's occurrence (week starts Monday); the
source itself notes it "could be past". -/
def getThisDayOfWeek (fromDate : Nat) (dayName : Str) : Nat :=
  setDayMonStart fromDate (getDayIndex dayName)

/-- date-fns `nextFriday`. -/
def nextFridaySerial (date : Nat) : Nat :=
  let diff : Int := 5 - (getDay date : Int)
  let diff := if diff ≤ 0 then diff + 7 else diff
  ((date : Int) + diff).toNat

/-- date-fns `endOfMonth` of the date's own month (date component only). -/
def endOfMonthSerial (date : Nat) : Nat :=
  match civilFromDayNumber date with
  | (y, m, _) => dayNumberShifted y m (daysInMonth y m)

/-- `getEndOfQuarter` from `dateResolver.ts`. -/
def getEndOfQuarter (date : Nat) : Nat :=
  match civilFromDayNumber date with
  | (y, m, _) =>
    let month0 := m - 1
    let quarterMonth0 := month0 / 3 * 3 + 2
    dayNumberShifted y (quarterMonth0 + 1) (daysInMonth y (quarterMonth0 + 1))

/-- `getQuarterEndDate` from `dateResolver.ts`: ends of Q1–Q4, rolling to
next year when the quarter's end month is strictly before the reference
month. -/
def getQuarterEndDate (referenceDate quarter : Nat) : Nat :=
  match civilFromDayNumber referenceDate with
  | (y, m, _) =>
    let month0 := m - 1
    let endMonth0 := if quarter = 1 then 2 else if quarter = 2 then 5
      else if quarter = 3 then 8 else 11
    let targetYear := if endMonth0 < month0 then y + 1 else y
    dayNumberShifted targetYear (endMonth0 + 1)
      (daysInMonth targetYear (endMonth0 + 1))

/-- Month names in the order of the resolver's regex. -/
def monthNames : List Str :=
  [str "january", str "february", str "march", str "april", str "may",
   str "june", str "july", str "august", str "september", str "october",
   str "november", str "december"]

/-- Zero-based month index of a month name (`months[monthName.toLowerCase()]`
in `getEndOfMonth`). -/
def monthIndex (monthName : Str) : Nat :=
  ((monthNames.indexOf? (jsToLower monthName)).getD 0)

/-- `getEndOfMonth` from `dateResolver.ts`: end of the named month, rolling
to next year when that month is strictly before the reference month. -/
def getEndOfMonthNamed (referenceDate : Nat) (monthName : Str) : Nat :=
  match civilFromDayNumber referenceDate with
  | (y, m, _) =>
    let month0 := m - 1
    let targetMonth0 := monthIndex monthName
    let targetYear := if targetMonth0 < month0 then y + 1 else y
    dayNumberShifted targetYear (targetMonth0 + 1)
      (daysInMonth targetYear (targetMonth0 + 1))

/-! Matchers for the resolver's anchored regular expressions.  Every
pattern is a sequence of literal words separated by `\s+` (or `\s*` for the
optional month prefix); since each word starts with a non-whitespace
character, the greedy whitespace runs are forced to be maximal, so the
matchers below implement the exact regex semantics. -/

/-- Remainder of `s` after a literal prefix. -/
def stripPrefixStr : Str → Str → Option Str
  | [], s => some s
  | _ :: _, [] => none
  | p :: ps, c :: cs => if p = c then stripPrefixStr ps cs else none

/-- Require at least one whitespace character and skip the whole run. -/
def ws1 (s : Str) : Option Str :=
  if (s.takeWhile isWSChar).isEmpty then none
  else some (s.dropWhile isWSChar)

/-- Anchored match of literal words separated by `\s+`. -/
def matchSeq : List Str → Str → Bool
  | [], e => e.isEmpty
  | [w], e => e == w
  | w :: ws, e =>
    match stripPrefixStr w e with
    | none => false
    | some r =>
      match ws1 r with
      | none => false
      | some r' => matchSeq ws r'

/-- Weekday names in the order of the resolver's regexes. -/
def weekdayNames : List Str :=
  [str "monday", str "tuesday", str "wednesday", str "thursday",
   str "friday", str "saturday", str "sunday"]

/-- `^kw\s+(monday|…|sunday)$`, returning the captured weekday. -/
def matchWeekdayAfter (kw : Str) (e : Str) : Option Str :=
  match stripPrefixStr kw e with
  | none => none
  | some r =>
    match ws1 r with
    | none => none
    | some r' => if weekdayNames.contains r' then some r' else none

/-- `^in\s+(\d+)\s+unit s?$`, returning the parsed number. -/
def matchInNum (unitSing : Str) (e : Str) : Option Nat :=
  match stripPrefixStr (str "in") e with
  | none => none
  | some r =>
    match ws1 r with
    | none => none
    | some r' =>
      let ds := r'.takeWhile Char.isDigit
      if ds.isEmpty then none
      else
        match ws1 (r'.dropWhile Char.isDigit) with
        | none => none
        | some r'' =>
          if r'' == unitSing || r'' == unitSing ++ ['s'] then
            some (digitsToNat ds)
          else none

/-- `^q([1-4])$`. -/
def matchQuarter (e : Str) : Option Nat :=
  match e with
  | ['q', c] =>
    if '1' ≤ c && c ≤ '4' then some (c.toNat - 48) else none
  | _ => none

/-- `^(asap|immediately|right\s+away|urgent)$`. -/
def matchASAP (e : Str) : Bool :=
  e == str "asap" || e == str "immediately"
    || matchSeq [str "right", str "away"] e || e == str "urgent"

/-- `^(?:by|in)?\s*(january|…|december)$`, returning the captured month
name. -/
def matchMonthName (e : Str) : Option Str :=
  let tryBare (r : Str) : Option Str :=
    let r' := r.dropWhile isWSChar
    if monthNames.contains r' then some r' else none
  (match stripPrefixStr (str "by") e with
   | some r => tryBare r
   | none => none)
  <|> (match stripPrefixStr (str "in") e with
       | some r => tryBare r
       | none => none)
  <|> tryBare e

/-- The resolver chain of `resolveDateExpression`, applied to the
normalized expression and the parsed meeting date; patterns are tried in
the source's fixed order, first match wins. -/
def resolveWithDate (e : Str) (meetingDate : Nat) : Option Nat :=
  (if e = str "tomorrow" then some (meetingDate + 1) else none)
  <|> ((matchWeekdayAfter (str "next") e).map (getNextDayOfWeek meetingDate))
  <|> ((matchWeekdayAfter (str "this") e).map (getThisDayOfWeek meetingDate))
  <|> (if matchSeq [str "end", str "of", str "week"] e || e == str "eow" then
        some (nextFridaySerial meetingDate) else none)
  <|> (if matchSeq [str "end", str "of", str "month"] e || e == str "eom" then
        some (endOfMonthSerial meetingDate) else none)
  <|> (if matchSeq [str "end", str "of", str "quarter"] e || e == str "eoq" then
        some (getEndOfQuarter meetingDate) else none)
  <|> ((matchInNum (str "day") e).map (fun n => meetingDate + n))
  <|> ((matchInNum (str "week") e).map (fun n => meetingDate + 7 * n))
  <|> (if matchSeq [str "in", str "a", str "week"] e then
        some (meetingDate + 7) else none)
  <|> (if matchSeq [str "in", str "two", str "weeks"] e then
        some (meetingDate + 14) else none)
  <|> (if matchSeq [str "next", str "week"] e then
        some (meetingDate + 7) else none)
  <|> ((matchQuarter e).map (getQuarterEndDate meetingDate))
  <|> (if matchASAP e then some (meetingDate + 1) else none)
  <|> ((matchWeekdayAfter (str "by") e).map (getNextDayOfWeek meetingDate))
  <|> ((matchMonthName e).map (getEndOfMonthNamed meetingDate))

/-- `resolveDateExpression` from `dateResolver.ts`. -/
def resolveDateExpression (expression meetingDateStr : Str) : Option Str :=
  match parseISO meetingDateStr with
  | none => none
  | some meetingDate =>
    let normalizedExpr := jsTrim (jsToLower expression)
    (resolveWithDate normalizedExpr meetingDate).map formatDate

/-- C6: the three concrete resolutions of the specification.
`"next Friday"` from Tuesday 2026-02-03 is 2026-02-06; `"eom"` from
2026-02-03 is 2026-02-28; `"Q1"` from 2026-04-01 rolls to next year's
quarter end, 2027-03-31. -/
theorem date_resolution_determinism :
    resolveDateExpression (str "next Friday") (str "2026-02-03")
        = some (str "2026-02-06")
      ∧ resolveDateExpression (str "eom") (str "2026-02-03")
        = some (str "2026-02-28")
      ∧ resolveDateExpression (str "Q1") (str "2026-04-01")
        = some (str "2027-03-31") := by
  refine ⟨by decide, by decide, by decide⟩

/-- `MeetingInfo` from `types/index.ts`. -/
structure MeetingInfo where
  title : Str
  date : Str
  attendees : List Str
  folderId : Str
  folderName : Str

/-- The fixed system prompt `SYSTEM_PROMPT` of `openaiService.ts`. -/
def SYSTEM_PROMPT : Str := str
"You are an expert meeting analyst who extracts actionable tasks from meeting transcripts. Your job is to identify both explicit task callouts and implicit action items.

## Explicit Task Patterns (confidence: 1.0)
These patterns indicate someone is explicitly creating a task:
- \"Create task [name] for [person] due [date]\"
- \"Task for [person]: [description] by [date]\"
- \"Action item: [task] assigned to [person]\"
- \"[Person], can you [task] by [date]\"
- \"Adding a task - [person] to [task]\"
- \"Let's make that a task for [person]\"
- \"That's a task for [person], due [date]\"
- \"I'll take an action item to [task]\"
- \"Can we add a task for [description]\"

## Implicit Task Detection (confidence: varies)
These are commitments made naturally in conversation:
- \"[Person] will [action]\" or \"I'll [action]\"
- \"Let me follow up on [topic]\"
- Promises or commitments: \"I can have that ready by...\"
- Clear next steps discussed: \"The next step is...\"
- Requests with deadlines: \"We need this done by...\"

## Priority Guidelines
- URGENT: Uses words like \"urgent\", \"ASAP\", \"critical\", \"immediately\", \"blocker\"
- HIGH: Important but not urgent, uses \"important\", \"priority\", \"soon\"
- NORMAL: Standard tasks without urgency indicators
- LOW: Nice to have, \"when you get a chance\", \"eventually\", \"low priority\"

## Date Resolution
When dates are mentioned relatively, resolve them based on the meeting date provided.
Return dates in ISO 8601 format (YYYY-MM-DD).

## Important Guidelines
1. Extract the exact quote where the task was identified
2. Be specific about assignees - use names exactly as mentioned
3. For explicit callouts, always set confidence to 1.0
4. For implicit tasks, set confidence based on how clear the commitment is
5. Don't create duplicate tasks - consolidate if the same task is mentioned multiple times
6. Focus on actionable items, not general discussions or observations"

/-- `attendees.join(', ')`. -/
def joinCommaSp : List Str → Str
  | [] => []
  | [l] => l
  | l :: ls => l ++ ',' :: ' ' :: joinCommaSp ls

/-- `buildUserPrompt` from `openaiService.ts`. -/
def buildUserPrompt (transcript : Str) (meetingInfo : MeetingInfo) : Str :=
  str "Analyze the following meeting transcript and extract all tasks.

## Meeting Information
- Title: " ++ meetingInfo.title
  ++ str "
- Date: " ++ meetingInfo.date
  ++ str "
- Source Folder: " ++ meetingInfo.folderName
  ++ str "
- Attendees: "
  ++ (if 0 < meetingInfo.attendees.length then joinCommaSp meetingInfo.attendees
      else str "Not specified")
  ++ str "

## Transcript
" ++ transcript
  ++ str "

Please identify all explicit task callouts and implicit action items. For each task, provide the title, description, suggested assignee, due date (if mentioned), priority, the exact source quote, your confidence level, and whether it was explicit or implicit."

/-- `isISODate`: `/^\d{4}-\d{2}-\d{2}$/`. -/
def isISODate (s : Str) : Bool :=
  match s with
  | [a, b, c, d, '-', e, f, '-', g, h] =>
    a.isDigit && b.isDigit && c.isDigit && d.isDigit
      && e.isDigit && f.isDigit && g.isDigit && h.isDigit
  | _ => false

/-- `postProcessAnalysis`: resolve every non-ISO, truthy `suggested_due`
through the date resolver (an unresolvable expression becomes absent). -/
def postProcessAnalysis (analysis : MeetingAnalysis) (meetingDate : Str) :
    MeetingAnalysis :=
  { analysis with
    tasks := analysis.tasks.map (fun task =>
      match task.suggested_due with
      | some s =>
        if !s.isEmpty && !isISODate s then
          { task with suggested_due := resolveDateExpression s meetingDate }
        else task
      | none => task) }

/-- The model configuration (`appConfig.openai`). -/
structure OpenAIConfig where
  model : Str
  fallbackModel : Str

/-- Behaviour of the external completion endpoint:
model → system prompt → user prompt → parsed result or failure. -/
def LLM : Type := Str → Str → Str → Option MeetingAnalysis

/-- One issued completion call, for reasoning about the retry policy. -/
structure CallRecord where
  model : Str
  system : Str
  user : Str
deriving DecidableEq

/-- `extractTasksWithFallback` from `openaiService.ts`: a single call to the
fallback model with the same prompt construction; a failure propagates. -/
def extractTasksWithFallback (llm : LLM) (cfg : OpenAIConfig)
    (transcriptContent : Str) (meetingInfo : MeetingInfo) :
    Except Str MeetingAnalysis × List CallRecord :=
  let userPrompt := buildUserPrompt transcriptContent meetingInfo
  match llm cfg.fallbackModel SYSTEM_PROMPT userPrompt with
  | some result =>
    (Except.ok (postProcessAnalysis result meetingInfo.date),
     [⟨cfg.fallbackModel, SYSTEM_PROMPT, userPrompt⟩])
  | none =>
    (Except.error (str "Failed to parse fallback model response"),
     [⟨cfg.fallbackModel, SYSTEM_PROMPT, userPrompt⟩])

/-- The single-call body of `extractTasks` (the branch for content within
the chunk limit; the chunked path issues this same call once per chunk):
try the primary model, and on any failure fall back exactly once via
`extractTasksWithFallback`. -/
def extractTasksCall (llm : LLM) (cfg : OpenAIConfig)
    (transcriptContent : Str) (meetingInfo : MeetingInfo) :
    Except Str MeetingAnalysis × List CallRecord :=
  let userPrompt := buildUserPrompt transcriptContent meetingInfo
  match llm cfg.model SYSTEM_PROMPT userPrompt with
  | some result =>
    (Except.ok (postProcessAnalysis result meetingInfo.date),
     [⟨cfg.model, SYSTEM_PROMPT, userPrompt⟩])
  | none =>
    let fb := extractTasksWithFallback llm cfg transcriptContent meetingInfo
    (fb.1, ⟨cfg.model, SYSTEM_PROMPT, userPrompt⟩ :: fb.2)

/-- C8: retry policy of the extraction call.  When the primary call
succeeds, exactly one call is made and no retry occurs; when it fails
(error or unparsable response), exactly one immediate retry is made against
the fallback model with the identical system and user prompts; a fallback
success is returned, and a fallback failure propagates as an error — never
a second retry. -/
theorem extractTasks_retry_policy (llm : LLM) (cfg : OpenAIConfig)
    (transcriptContent : Str) (meetingInfo : MeetingInfo) :
    (∀ r, llm cfg.model SYSTEM_PROMPT
        (buildUserPrompt transcriptContent meetingInfo) = some r →
      extractTasksCall llm cfg transcriptContent meetingInfo
        = (Except.ok (postProcessAnalysis r meetingInfo.date),
           [⟨cfg.model, SYSTEM_PROMPT,
             buildUserPrompt transcriptContent meetingInfo⟩]))
    ∧ (llm cfg.model SYSTEM_PROMPT
        (buildUserPrompt transcriptContent meetingInfo) = none →
      (extractTasksCall llm cfg transcriptContent meetingInfo).2
        = [⟨cfg.model, SYSTEM_PROMPT,
            buildUserPrompt transcriptContent meetingInfo⟩,
           ⟨cfg.fallbackModel, SYSTEM_PROMPT,
            buildUserPrompt transcriptContent meetingInfo⟩]
      ∧ (∀ r, llm cfg.fallbackModel SYSTEM_PROMPT
            (buildUserPrompt transcriptContent meetingInfo) = some r →
          (extractTasksCall llm cfg transcriptContent meetingInfo).1
            = Except.ok (postProcessAnalysis r meetingInfo.date))
      ∧ (llm cfg.fallbackModel SYSTEM_PROMPT
            (buildUserPrompt transcriptContent meetingInfo) = none →
          (extractTasksCall llm cfg transcriptContent meetingInfo).1
            = Except.error (str "Failed to parse fallback model response"))) := by
  constructor
  · intro r hr
    unfold extractTasksCall
    dsimp only
    rw [hr]
  · intro hnone
    unfold extractTasksCall
    dsimp only
    rw [hnone]
    refine ⟨?_, ?_, ?_⟩
    · unfold extractTasksWithFallback
      dsimp only
      cases hfb : llm cfg.fallbackModel SYSTEM_PROMPT
          (buildUserPrompt transcriptContent meetingInfo) <;> rfl
    · intro r hr
      unfold extractTasksWithFallback
      dsimp only
      rw [hr]
    · intro hr
      unfold extractTasksWithFallback
      dsimp only
      rw [hr]

/-- A concrete meeting context used by witnesses. -/
def witnessInfo : MeetingInfo :=
  ⟨str "Weekly sync", str "2026-02-03", [str "John", str "Anna"],
   str "folder-id", str "Planning"⟩

/-- C8 (witness): with an endpoint that always fails, the call issues
exactly the primary call and then one fallback call, and the failure
propagates. -/
theorem extractTasks_retry_policy_witness :
    (extractTasksCall (fun _ _ _ => none)
        ⟨str "gpt-4o", str "gpt-4o-mini"⟩ (str "transcript") witnessInfo).2
      = [⟨str "gpt-4o", SYSTEM_PROMPT,
          buildUserPrompt (str "transcript") witnessInfo⟩,
         ⟨str "gpt-4o-mini", SYSTEM_PROMPT,
          buildUserPrompt (str "transcript") witnessInfo⟩]
    ∧ (extractTasksCall (fun _ _ _ => none)
        ⟨str "gpt-4o", str "gpt-4o-mini"⟩ (str "transcript") witnessInfo).1
      = Except.error (str "Failed to parse fallback model response") :=
  ⟨((extractTasks_retry_policy (fun _ _ _ => none)
      ⟨str "gpt-4o", str "gpt-4o-mini"⟩ (str "transcript") witnessInfo).2
      rfl).1,
   ((extractTasks_retry_policy (fun _ _ _ => none)
      ⟨str "gpt-4o", str "gpt-4o-mini"⟩ (str "transcript") witnessInfo).2
      rfl).2.2 rfl⟩

/-! The format detector of `utils/transcriptParser.ts`.  Each regex test is
embedded as a decidable matcher; where a pattern mixes greedy classes, the
following literal starts with a character outside the class, so the greedy
run is forced to be maximal and the matcher is exact (the one genuinely
backtracking construct, `.+`/`\s+` in the Zoom chat pattern, is handled by
an explicit search over split points). -/

/-- `TranscriptFormat` from `transcriptParser.ts`. -/
inductive TranscriptFormat where
  | vtt | srt | plain | google_meet | zoom | teams
deriving DecidableEq

/-- Suffixes of a string starting right after each newline. -/
def tailsAfterNl : Str → List Str
  | [] => []
  | c :: t => if c = '\n' then t :: tailsAfterNl t else tailsAfterNl t

/-- A multi-line (`m` flag) anchored test: the pattern may match at the
start of any line. -/
def anyLineStart (p : Str → Bool) (s : Str) : Bool :=
  (s :: tailsAfterNl s).any p

/-- Exactly `n` digits, returning the remainder. -/
def expectDigits : Nat → Str → Option Str
  | 0, s => some s
  | _ + 1, [] => none
  | n + 1, c :: t => if c.isDigit then expectDigits n t else none

/-- One literal character, returning the remainder. -/
def expectChar (ch : Char) : Str → Option Str
  | [] => none
  | c :: t => if c = ch then some t else none

/-- `\d{2}:\d{2}:\d{2},\d{3}` (the SRT timestamp shape). -/
def srtTimestamp (s : Str) : Option Str :=
  (expectDigits 2 s).bind (expectChar ':') |>.bind (expectDigits 2)
    |>.bind (expectChar ':') |>.bind (expectDigits 2)
    |>.bind (expectChar ',') |>.bind (expectDigits 3)

/-- `\s*-->\s*` between two SRT timestamps. -/
def srtArrowPart (s : Str) : Bool :=
  match srtTimestamp s with
  | none => false
  | some r =>
    match stripPrefixStr (str "-->") (r.dropWhile isWSChar) with
    | none => false
    | some r2 => (srtTimestamp (r2.dropWhile isWSChar)).isSome

/-- `^\d+\s*\n` followed by a timestamp pair, at one line start (the
timestamp begins with a digit, so the `\s*` run must end exactly at its
final newline). -/
def srtBlock (s : Str) : Bool :=
  if (s.takeWhile Char.isDigit).isEmpty then false
  else
    let r := s.dropWhile Char.isDigit
    let run := r.takeWhile isWSChar
    match run.getLast? with
    | some '\n' => srtArrowPart (r.drop run.length)
    | _ => false

/-- `[A-Z][a-z]+`: one ASCII uppercase letter then at least one lowercase
letter. -/
def upperThenLower : Str → Bool
  | c :: d :: _ => c.isUpper && d.isLower
  | _ => false

/-- `\d{1,2}:` with the regex's greedy-then-backtrack order. -/
def hourColon (s : Str) : Option Str :=
  match (expectDigits 2 s).bind (expectChar ':') with
  | some r => some r
  | none => (expectDigits 1 s).bind (expectChar ':')

/-- `^\d{1,2}:\d{2}:\d{2}\s+[A-Z][a-z]+` (the Google Meet shape; the source
tests it without the `m` flag, i.e. only at the very start). -/
def meetTimePattern (s : Str) : Bool :=
  match (hourColon s).bind (expectDigits 2) |>.bind (expectChar ':')
      |>.bind (expectDigits 2) with
  | none => false
  | some r =>
    match ws1 r with
    | none => false
    | some r' => upperThenLower r'

/-- `^\d{1,2}:\d{2}\s+(AM|PM)\s+[A-Z][a-z]+` (the Teams shape). -/
def teamsLinePattern (s : Str) : Bool :=
  match (hourColon s).bind (expectDigits 2) with
  | none => false
  | some r =>
    match ws1 r with
    | none => false
    | some r' =>
      match (stripPrefixStr (str "AM") r').orElse
          (fun _ => stripPrefixStr (str "PM") r') with
      | none => false
      | some r2 =>
        match ws1 r2 with
        | none => false
        | some r3 => upperThenLower r3

/-- `.+\s+to\s+Everyone:` after the leading whitespace: search over the
split point ending the `.+` part (which may not contain a newline). -/
def zoomTailMatch (m : Str) : Bool :=
  (List.range (m.length + 1)).any (fun k =>
    decide (1 ≤ k) && (m.take k).all (fun c => !(c == '\n')) &&
      (match ws1 (m.drop k) with
       | none => false
       | some r =>
         match stripPrefixStr (str "to") r with
         | none => false
         | some r2 =>
           match ws1 r2 with
           | none => false
           | some r3 => (stripPrefixStr (str "Everyone:") r3).isSome))

/-- `^From\s+.+\s+to\s+Everyone:` at one line start; the split between the
leading `\s+` and the `.+` (which may itself consume whitespace) is
searched explicitly. -/
def zoomChatLine (s : Str) : Bool :=
  match stripPrefixStr (str "From") s with
  | none => false
  | some rest =>
    (List.range (rest.length + 1)).any (fun i =>
      decide (1 ≤ i) && (rest.take i).all isWSChar && zoomTailMatch (rest.drop i))

/-- The first ~10 lines inspected by the detector. -/
def firstTenLines (content : Str) : Str :=
  joinNl ((splitLines content).take 10)

/-- `detectTranscriptFormat` from `transcriptParser.ts`. -/
def detectTranscriptFormat (content : Str) : TranscriptFormat :=
  let firstLines := firstTenLines content
  if containsStr firstLines (str "WEBVTT") then TranscriptFormat.vtt
  else if anyLineStart srtBlock firstLines then TranscriptFormat.srt
  else if containsStr firstLines (str "Google Meet")
      || meetTimePattern firstLines then TranscriptFormat.google_meet
  else if containsStr firstLines (str "ZOOM")
      || anyLineStart zoomChatLine content then TranscriptFormat.zoom
  else if containsStr firstLines (str "Microsoft Teams")
      || anyLineStart teamsLinePattern firstLines then TranscriptFormat.teams
  else TranscriptFormat.plain

/-- A priority-ordered rule table: first matching predicate wins. -/
def firstRule {α : Type} : List ((Str → Bool) × α) → α → Str → α
  | [], dflt, _ => dflt
  | (p, v) :: rest, dflt, s => if p s then v else firstRule rest dflt s

/-- The detector's rules in their fixed precedence order, as a rule table
(the specification's priority-ordered list of (predicate, handler)
pairs). -/
def detectRules : List ((Str → Bool) × TranscriptFormat) :=
  [(fun content => containsStr (firstTenLines content) (str "WEBVTT"),
     TranscriptFormat.vtt),
   (fun content => anyLineStart srtBlock (firstTenLines content),
     TranscriptFormat.srt),
   (fun content => containsStr (firstTenLines content) (str "Google Meet")
       || meetTimePattern (firstTenLines content),
     TranscriptFormat.google_meet),
   (fun content => containsStr (firstTenLines content) (str "ZOOM")
       || anyLineStart zoomChatLine content,
     TranscriptFormat.zoom),
   (fun content => containsStr (firstTenLines content) (str "Microsoft Teams")
       || anyLineStart teamsLinePattern (firstTenLines content),
     TranscriptFormat.teams)]

/-- Ten `"a"` lines followed by a Zoom chat line beyond the inspected
window. -/
def zoomTailContent : Str :=
  str "a\na\na\na\na\na\na\na\na\na\nFrom x to Everyone: hi"

/-- Just the ten `"a"` lines. -/
def plainTenContent : Str := str "a\na\na\na\na\na\na\na\na\na"

/-- C9 (counterexample): format detection does not depend only on the first
10 lines.  Two inputs with identical first 10 lines are classified
differently, because the Zoom chat-pattern rule scans the whole content:
an 11th line `"From x to Everyone: hi"` flips the result from `plain` to
`zoom`. -/
theorem detect_depends_beyond_first_ten_lines :
    (splitLines zoomTailContent).take 10 = (splitLines plainTenContent).take 10
      ∧ detectTranscriptFormat zoomTailContent = TranscriptFormat.zoom
      ∧ detectTranscriptFormat plainTenContent = TranscriptFormat.plain := by
  refine ⟨by decide, by decide, by decide⟩

/-- C9 (amended): the detector evaluates its rules in the fixed precedence
order VTT header, SRT block, Google Meet, Zoom, Teams, defaulting to
`plain`, with the first matching rule winning (it equals the
priority-ordered rule table `detectRules`); and every rule depends only on
the first 10 lines EXCEPT the Zoom chat-line pattern, which scans the whole
input: any two inputs with equal first 10 lines on which that one
whole-content scan agrees are assigned the same format. -/
theorem detectTranscriptFormat_spec :
    (∀ content, detectTranscriptFormat content
        = firstRule detectRules TranscriptFormat.plain content)
    ∧ (∀ a b, (splitLines a).take 10 = (splitLines b).take 10 →
        anyLineStart zoomChatLine a = anyLineStart zoomChatLine b →
        detectTranscriptFormat a = detectTranscriptFormat b) := by
  constructor
  · intro content
    rfl
  · intro a b h10 hzoom
    unfold detectTranscriptFormat
    have hfl : firstTenLines a = firstTenLines b := by
      unfold firstTenLines
      rw [h10]
    rw [hfl, hzoom]

/-- C9 (witness): two different inputs agreeing on the first 10 lines and
on the Zoom whole-content scan get the same format. -/
theorem detectTranscriptFormat_spec_witness :
    detectTranscriptFormat (str "a\na\na\na\na\na\na\na\na\na\nb")
      = detectTranscriptFormat plainTenContent :=
  detectTranscriptFormat_spec.2 (str "a\na\na\na\na\na\na\na\na\na\nb")
    plainTenContent (by decide) (by decide)

end MeetingBot
